import Mathlib

/-!
Verification development for `src/Audits/PythonAV.py` of the repository
`DailyInvestors/Python-Root-Audit-with-ClamAV`.

The script defines one function, `audit_files_with_clamav(start_path)`, which

  * checks `os.path.isdir(start_path)` and logs a single error and returns if
    the check fails (lines 16-18);
  * otherwise logs a start line (line 20), creates an empty set
    `inaccessible_dirs` (line 24) and iterates `os.walk(start_path)`
    (lines 26-89);
  * for each yielded triple `(root, dirs, files)` it first checks
    `root in inaccessible_dirs` and, when the check succeeds, clears `dirs`
    and continues (lines 28-30);
  * otherwise, for each `file_name in files` it joins the path (line 40),
    skips entries for which `os.path.isfile` fails at scan time (lines 43-44),
    logs a debug line (line 46) and runs
    `subprocess.run(['clamscan', '--no-summary', file_path], capture_output=True,
    text=True, check=False)` (lines 51-62), classifying
    `process.returncode` as 0 = clean / 1 = infected / other = scan error
    (lines 68-76); a `FileNotFoundError` from `subprocess.run` logs the
    missing-binary error and `return`s from the whole function (lines 78-80);
    any other exception logs an error for that file and the loop continues
    (lines 81-82);
  * after the loop it logs "ClamAV audit completed." (line 91) - this line is
    not reached when the function returned at line 80.

Points of Python semantics reflected by the embedding:

  * `os.walk` is called without an `onerror` argument.  Per the CPython
    implementation and documentation, errors raised by the underlying
    `os.scandir` call are then ignored: a directory whose listing raises
    `PermissionError` (or any other `OSError`) is silently skipped - the walk
    never yields a triple for it and never descends below it.  Exceptions
    from the generator would, in any case, surface at the `for` statement on
    line 26, which is outside the `try` of line 32.
  * Consequently the `except PermissionError` handler of lines 84-87 (and the
    `except Exception` handler of lines 88-89) can only be reached by an
    exception raised by the loop body of lines 39-82.  The body consists of
    `os.path.join` (pure string manipulation), `os.path.isfile` (which
    returns `False` instead of raising on `OSError`/`ValueError`), `logging`
    calls, and an inner `try` whose `except Exception` clause catches every
    exception the subprocess machinery can raise (`PermissionError` is a
    subclass of `Exception`).  The outer handlers are therefore unreachable,
    and the embedding's walk body never transfers control to them.  The
    handler's effect is still transcribed below (`permissionHandlerEffect`)
    so that its intended behaviour can be compared with the actual runs.
  * `os.walk(topdown=True)` lists a directory once, splits the entries into
    subdirectories and non-directories (both in listing order), yields the
    triple, and then recurses into the subdirectory list as left by the body.
    Symbolic links to directories are not followed (`followlinks=False`);
    non-directory entries of every kind (regular files, FIFOs, sockets,
    devices, dangling symlinks) all appear in the `files` component, which is
    why line 43 re-checks `os.path.isfile` per entry.
  * The `return` on line 80 abandons the generator: no further triple is
    processed.  The embedding models it with an `aborted` flag that every
    remaining step leaves untouched.

The state carries, besides the log, several write-only observation fields
(`scanned`, `commands`, `classifications`, `consulted`, `visited`,
`pruneHits`) that record events as they happen; they never influence control
flow and exist only so that theorems can talk about the events.
-/

namespace ClamAVAudit

/-- Python `logging` severity levels used by the script. -/
inductive Level where
  | debug
  | info
  | warning
  | error
  deriving DecidableEq, Repr

/-- One line emitted through the `logging` module: a severity and a message
(the timestamp added by the configured format carries no information about
the program's behaviour and is omitted). -/
structure LogLine where
  level : Level
  msg : String
  deriving DecidableEq, Repr

/-- Result of one `subprocess.run(['clamscan', ...], check=False)` call:
either the process ran and produced an exit status with captured textual
standard output and standard error (`check=False`, so no exit status raises),
or `subprocess.run` itself raised `FileNotFoundError` (the binary cannot be
located), or it raised some other exception. -/
inductive ScanOutcome where
  | exit (code : Int) (stdout stderr : String)
  | notFound
  | otherExc (msg : String)
  deriving DecidableEq, Repr

/-- The three per-file classifications of the exit-code contract
(lines 68-76). -/
inductive Classification where
  | clean
  | infected
  | scanError (code : Int)
  deriving DecidableEq, Repr

/-- The ambient system behaviour: the scan-time `os.path.isfile` check for a
path, and the outcome of invoking the scanner on a path. -/
structure Env where
  isfile : String → Bool
  scan : String → ScanOutcome

/-- What happens when `os.scandir` is attempted on a directory: the listing
succeeds (`readable`), raises `PermissionError` (`permDenied`), or raises
some other `OSError` (`listErr`). -/
inductive DirKind where
  | readable
  | permDenied
  | listErr
  deriving DecidableEq, Repr

/-- A list of sibling directories, each with its listing outcome, its
non-directory entries (entry names, in listing order - `os.walk` puts every
non-directory entry of any kind into the `files` component of the yielded
triple), and its subdirectory forest.  `node kind name files children rest`
is the directory `name` followed by its later siblings `rest`.  The contents
stored under a `permDenied`/`listErr` node exist on disk but are never seen
by the walk; keeping them lets theorems state that nothing below such a
directory is scanned. -/
inductive Forest where
  | nil
  | node (kind : DirKind) (name : String) (files : List String)
      (children : Forest) (rest : Forest)
  deriving DecidableEq, Repr

/-- The directory at `start_path` when the `os.path.isdir` check of line 16
succeeds: its listing outcome, its non-directory entries and its
subdirectory forest. -/
structure RootDir where
  kind : DirKind
  files : List String
  children : Forest
  deriving DecidableEq, Repr

/-- Whether a string starts with the path separator (`b.startswith('/')` in
`posixpath.join`). -/
def strStartsWithSlash (s : String) : Bool :=
  s.data.head? == some '/'

/-- Whether a string ends with the path separator (`path.endswith('/')` in
`posixpath.join`). -/
def strEndsWithSlash (s : String) : Bool :=
  s.data.getLast? == some '/'

/-- Model of `os.path.join(a, b)` for POSIX paths (`posixpath.join` with two
arguments): if `b` starts with the separator it replaces the path; if `a` is
empty or ends with the separator the parts are concatenated; otherwise one
separator is inserted between them. -/
def osPathJoin (a b : String) : String :=
  if strStartsWithSlash b then b
  else if a == "" || strEndsWithSlash a then a ++ b
  else a ++ "/" ++ b

/-- Message of line 17. -/
def invalidRootMsg (start_path : String) : String :=
  "Error: The provided path \x27" ++ start_path ++ "\x27 is not a valid directory."

/-- Message of line 20. -/
def startMsg (start_path : String) : String :=
  "Starting ClamAV audit of: " ++ start_path

/-- Message of line 46. -/
def scanningMsg (file_path : String) : String :=
  "Scanning: " ++ file_path

/-- Message of line 69. -/
def cleanMsg (file_path : String) : String :=
  "CLEAN: " ++ file_path

/-- Message of line 71. -/
def infectedMsg (file_path : String) : String :=
  "INFECTED: " ++ file_path

/-- Message of line 73; `.strip()` is modelled by `String.trim`. -/
def infectedDetailMsg (stdout : String) : String :=
  "  ClamAV Output: " ++ stdout.trim

/-- Message of line 75. -/
def scanErrMsg (file_path : String) (code : Int) : String :=
  "ERROR scanning " ++ file_path ++ " (Return Code: " ++ toString code ++ ")"

/-- Message of line 76. -/
def scanErrDetailMsg (stderr : String) : String :=
  "  ClamAV Stderr: " ++ stderr.trim

/-- Message of line 79. -/
def notFoundMsg : String :=
  "ClamAV (clamscan) not found. Please ensure ClamAV is installed and in your system\x27s PATH."

/-- Message of line 82. -/
def unexpectedMsg (file_path e : String) : String :=
  "An unexpected error occurred while scanning " ++ file_path ++ ": " ++ e

/-- Message of line 85. -/
def permDeniedMsg (root : String) : String :=
  "Permission denied to access directory: " ++ root ++ ". Skipping this directory."

/-- Message of line 89. -/
def traversalErrMsg (root e : String) : String :=
  "An error occurred during directory traversal in " ++ root ++ ": " ++ e

/-- Message of line 91. -/
def completedMsg : String :=
  "ClamAV audit completed."

/-- The run state: the `inaccessible_dirs` set (as a list of paths, line 24),
the emitted log, and write-only observation fields: `scanned` records each
path passed to `subprocess.run` in order; `commands` the full argument
vectors of those invocations; `classifications` each (path, classification)
pair produced at lines 68-76; `consulted` each directory for which the
line-28 membership test was evaluated; `visited` each directory whose body
(lines 32-89) ran; `pruneHits` how often the line-28 test was true;
`aborted` whether the `return` of line 80 has executed. -/
structure AuditState where
  inaccessible : List String := []
  log : List LogLine := []
  scanned : List String := []
  commands : List (List String) := []
  classifications : List (String × Classification) := []
  consulted : List String := []
  visited : List String := []
  pruneHits : Nat := 0
  aborted : Bool := false
  deriving DecidableEq, Repr

/-- The initial state: empty log, empty `inaccessible_dirs`, nothing scanned. -/
def initState : AuditState := {}

/-- Build one log line. -/
def mkLog (level : Level) (msg : String) : LogLine :=
  ⟨level, msg⟩

/-- The argument vector of line 51: `['clamscan', '--no-summary', file_path]`. -/
def clamscanCommand (file_path : String) : List String :=
  ["clamscan", "--no-summary", file_path]

/-- Lines 39-82 for one entry of `files`: join the path (line 40), skip the
entry unless `os.path.isfile` succeeds at scan time (lines 43-44), log the
debug line (line 46), invoke the scanner (lines 51-62, recorded in
`scanned`/`commands`), and dispatch on the outcome (lines 64-82). -/
def scanOne (env : Env) (root file_name : String) (st : AuditState) : AuditState :=
  let file_path := osPathJoin root file_name
  if env.isfile file_path then
    let st := { st with log := st.log ++ [mkLog .debug (scanningMsg file_path)] }
    let st := { st with commands := st.commands ++ [clamscanCommand file_path],
                        scanned := st.scanned ++ [file_path] }
    match env.scan file_path with
    | .exit code stdout stderr =>
      if code = 0 then
        { st with log := st.log ++ [mkLog .info (cleanMsg file_path)],
                  classifications := st.classifications ++ [(file_path, Classification.clean)] }
      else if code = 1 then
        { st with log := st.log ++ [mkLog .warning (infectedMsg file_path),
                                    mkLog .warning (infectedDetailMsg stdout)],
                  classifications := st.classifications ++ [(file_path, Classification.infected)] }
      else
        { st with log := st.log ++ [mkLog .error (scanErrMsg file_path code),
                                    mkLog .error (scanErrDetailMsg stderr)],
                  classifications :=
                    st.classifications ++ [(file_path, Classification.scanError code)] }
    | .notFound =>
      { st with log := st.log ++ [mkLog .error notFoundMsg], aborted := true }
    | .otherExc e =>
      { st with log := st.log ++ [mkLog .error (unexpectedMsg file_path e)] }
  else
    st

/-- The `for file_name in files` loop of line 39.  Once the `return` of
line 80 has executed (`aborted`), control never re-enters the loop. -/
def scanFiles (env : Env) (root : String) (files : List String) (st : AuditState) : AuditState :=
  if st.aborted then st
  else
    match files with
    | [] => st
    | file_name :: rest => scanFiles env root rest (scanOne env root file_name st)

/-- The `os.walk` iteration (lines 26-89) over a sibling list of
directories, depth first and in listing order, each directory's path being
`os.path.join(parent, name)`.  A directory whose listing raised is silently
skipped together with everything below it (no `onerror` was passed to
`os.walk`, see the header comment).  For a readable directory the walk
yields `(root, dirs, files)`; the body then tests `root in inaccessible_dirs`
(line 28: on success `dirs` is cleared and the body continues to the next
triple, so nothing below is walked), otherwise scans the files and - because
the body leaves `dirs` untouched in that case - the walk recurses into every
subdirectory before moving on to the next sibling.  After the `return` of
line 80 the generator is never resumed, which the `aborted` guard models. -/
def walkForest (env : Env) (parent : String) (f : Forest) (st : AuditState) : AuditState :=
  match f with
  | .nil => st
  | .node kind name files children rest =>
    let root := osPathJoin parent name
    let st' :=
      if st.aborted then st
      else
        match kind with
        | .permDenied => st
        | .listErr => st
        | .readable =>
          let st := { st with consulted := st.consulted ++ [root] }
          if root ∈ st.inaccessible then
            { st with pruneHits := st.pruneHits + 1 }
          else
            let st := { st with visited := st.visited ++ [root] }
            let st := scanFiles env root files st
            walkForest env root children st
    walkForest env parent rest st'

/-- The whole function `audit_files_with_clamav` (lines 8-91).  The `root`
argument is the directory at `start_path` when `start_path` names an
existing directory, and `none` when the `os.path.isdir` check of line 16
fails.  The walk starts on the singleton forest holding the root directory
under the empty parent path; `os.path.join('', start_path) = start_path`,
so the root directory's path is `start_path` itself. -/
def audit_files_with_clamav (env : Env) (start_path : String) (root : Option RootDir) :
    AuditState :=
  match root with
  | none => { initState with log := [mkLog .error (invalidRootMsg start_path)] }
  | some r =>
    let st := { initState with log := [mkLog .info (startMsg start_path)] }
    let st := walkForest env "" (.node r.kind start_path r.files r.children .nil) st
    if st.aborted then st
    else { st with log := st.log ++ [mkLog .info completedMsg] }

/-- Whether a `subprocess.run` outcome is an ordinary completion with an
exit status (as opposed to `subprocess.run` itself raising). -/
def ScanOutcome.isExit : ScanOutcome → Bool
  | .exit _ _ _ => true
  | .notFound => false
  | .otherExc _ => false

/-- The scanner binary is present and every invocation completes with an
exit status (no `FileNotFoundError`, no unexpected exception). -/
def allExit (env : Env) : Prop :=
  ∀ q, (env.scan q).isExit = true

/-- The names of the directories of one sibling level, in listing order. -/
def levelNames : Forest → List String
  | .nil => []
  | .node _ name _ _ rest => name :: levelNames rest

/-- A well-formed filesystem entry name: nonempty and free of the path
separator.  (The redundant final clause is the specialisation of
separator-freeness to the first character, kept so that `osPathJoin` can be
computed from it directly.) -/
def validName (n : String) : Bool :=
  n != "" && !(n.data.contains '/') && !(strStartsWithSlash n)

/-- A forest shaped like a real directory tree: every directory name and
file name is well formed, the files of one directory are pairwise distinct,
and the directory names of one sibling level are pairwise distinct (as
`os.scandir` guarantees for a real filesystem). -/
def validForest : Forest → Bool
  | .nil => true
  | .node _ name files children rest =>
    validName name && files.all validName && decide files.Nodup &&
    !((levelNames rest).contains name) && validForest children && validForest rest

/-- A well-formed directory path to walk from: nonempty and not ending in
the separator (so that joining a name appends exactly one separator). -/
def goodPath (p : String) : Bool :=
  p != "" && !(strEndsWithSlash p)

/-- Specification-side description of the set of files the spec expects to
be scanned: the regular files (those passing the scan-time `isfile` check)
of every directory reachable from the parent path through readable
directories, files of a directory first, then its subtrees, then its later
siblings - i.e. exactly the files not inside a pruned subtree, in walk
order. -/
def reachFiles (env : Env) (parent : String) : Forest → List String
  | .nil => []
  | .node kind name files children rest =>
    let root := osPathJoin parent name
    (match kind with
     | .readable =>
       (files.map (fun n => osPathJoin root n)).filter env.isfile ++
         reachFiles env root children
     | .permDenied => []
     | .listErr => []) ++ reachFiles env parent rest

/-- The forest the walk of `audit_files_with_clamav` runs on: the root
directory as a singleton sibling level under the empty parent path. -/
def rootForest (start_path : String) (r : RootDir) : Forest :=
  .node r.kind start_path r.files r.children .nil

/-- Specification-side reachable regular files of a whole run. -/
def reachableRegularFiles (env : Env) (start_path : String) (r : RootDir) : List String :=
  reachFiles env "" (rootForest start_path r)

/-- Transcription of the `except PermissionError` handler of lines 84-87:
log a warning, add `root` to `inaccessible_dirs`, clear `dirs`.  As explained
in the header comment, no statement the handler's `try` block guards can
raise `PermissionError` past the inner `except Exception`, and listing
errors are swallowed inside `os.walk`, so no run of the walk above ever
executes this effect. -/
def permissionHandlerEffect (root : String) (st : AuditState) : AuditState :=
  { st with log := st.log ++ [mkLog .warning (permDeniedMsg root)],
            inaccessible := st.inaccessible ++ [root] }

/-- The state in which the walk of a run starts: empty everything, with the
start line of line 20 already logged. -/
def auditStart (start_path : String) : AuditState :=
  { initState with log := [mkLog .info (startMsg start_path)] }

/-- Well-formedness of the root directory: its files and everything below
are named like real filesystem entries (see `validForest`).  The root's own
path plays the role of a directory name one level up, so it is constrained
separately by `goodPath`. -/
def validRoot (r : RootDir) : Bool :=
  r.files.all validName && decide r.files.Nodup && validForest r.children

/-- The error line emitted at line 79 when the scanner binary is absent. -/
def notFoundLine : LogLine :=
  mkLog .error notFoundMsg

/-- How many times a given line occurs in a log. -/
def countLine (target : LogLine) (log : List LogLine) : Nat :=
  log.countP (fun l => l == target)

/-- How many classifications a run produced for a given file path. -/
def classCountFor (F : String) (cl : List (String × Classification)) : Nat :=
  cl.countP (fun pc => pc.1 == F)

/-- Concrete system: every path passes the `isfile` check and every scan
completes cleanly (exit status 0). -/
def envAllClean : Env :=
  { isfile := fun _ => true, scan := fun _ => .exit 0 "" "" }

/-- Concrete system: `/r/fifo` is not a regular file at scan time;
`/r/b.exe` scans as infected (exit 1), `/r/sub/bad.bin` fails to scan
(exit 2), everything else is clean. -/
def envMixed : Env :=
  { isfile := fun p => p != "/r/fifo",
    scan := fun p =>
      .exit (if p = "/r/b.exe" then 1 else if p = "/r/sub/bad.bin" then 2 else 0)
        " FOUND: Test.Signature " " some stderr text " }

/-- Concrete system: the scanner binary is absent - every invocation raises
`FileNotFoundError`. -/
def envNoBinary : Env :=
  { isfile := fun _ => true, scan := fun _ => .notFound }

/-- Concrete system: every invocation raises an unexpected exception. -/
def envBroken : Env :=
  { isfile := fun _ => true, scan := fun _ => .otherExc "boom" }

/-- Concrete root directory: two regular files and one non-regular entry at
the top, a readable subdirectory with two files. -/
def rootMixed : RootDir :=
  { kind := .readable,
    files := ["a.txt", "b.exe", "fifo"],
    children := .node .readable "sub" ["c.txt", "bad.bin"] .nil .nil }

/-- Concrete root directory: one clean file, then a subdirectory `locked`
whose listing raises `PermissionError` and which contains a file `c.txt`. -/
def rootLocked : RootDir :=
  { kind := .readable,
    files := ["a.txt"],
    children := .node .permDenied "locked" ["c.txt"] .nil .nil }

/-- Concrete root directory: just two regular files. -/
def rootTwoFiles : RootDir :=
  { kind := .readable, files := ["a.txt", "b.txt"], children := .nil }

/-- A concrete state in which the `return` of line 80 has already executed. -/
def abortedState : AuditState :=
  { initState with aborted := true }

/-! ### Helper lemmas -/

theorem strAppend_cancel_left {a b c : String} (h : a ++ b = a ++ c) : b = c := by
  apply String.ext
  have hd : a.data ++ b.data = a.data ++ c.data := by
    rw [← String.data_append, ← String.data_append, h]
  exact List.append_cancel_left hd

theorem slashFree_sep_inj :
    ∀ (u₁ : List Char) (u₂ : List Char) (v₁ v₂ : List Char),
      '/' ∉ u₁ → '/' ∉ u₂ → u₁ ++ '/' :: v₁ = u₂ ++ '/' :: v₂ → u₁ = u₂ ∧ v₁ = v₂ := by
  intro u₁
  induction u₁ with
  | nil =>
    intro u₂ v₁ v₂ _ h₂ heq
    cases u₂ with
    | nil => simpa using heq
    | cons d u₂ =>
      simp only [List.nil_append, List.cons_append, List.cons.injEq] at heq
      exfalso
      apply h₂
      rw [← heq.1]
      exact List.mem_cons_self _ _
  | cons c u₁ ih =>
    intro u₂ v₁ v₂ h₁ h₂ heq
    cases u₂ with
    | nil =>
      simp only [List.cons_append, List.nil_append, List.cons.injEq] at heq
      exfalso
      apply h₁
      rw [heq.1]
      exact List.mem_cons_self _ _
    | cons d u₂ =>
      simp only [List.cons_append, List.cons.injEq] at heq
      obtain ⟨rfl, htl⟩ := heq
      have := ih u₂ v₁ v₂ (fun hm => h₁ (List.mem_cons_of_mem _ hm))
        (fun hm => h₂ (List.mem_cons_of_mem _ hm)) htl
      exact ⟨by rw [this.1], this.2⟩

theorem validName_parts {n : String} (h : validName n = true) :
    n ≠ "" ∧ '/' ∉ n.data ∧ strStartsWithSlash n = false := by
  simp only [validName, Bool.and_eq_true, Bool.not_eq_true', bne_iff_ne, ne_eq] at h
  refine ⟨h.1.1, ?_, h.2⟩
  intro hm
  have hc := h.1.2
  simp_all

theorem goodPath_parts {p : String} (h : goodPath p = true) :
    p ≠ "" ∧ strEndsWithSlash p = false := by
  simp only [goodPath, Bool.and_eq_true, Bool.not_eq_true', bne_iff_ne, ne_eq] at h
  exact h

theorem osPathJoin_eq {p n : String} (hp : goodPath p = true) (hn : validName n = true) :
    osPathJoin p n = p ++ "/" ++ n := by
  obtain ⟨hp1, hp2⟩ := goodPath_parts hp
  obtain ⟨-, -, hn3⟩ := validName_parts hn
  rw [osPathJoin, hn3, hp2]
  simp [hp1]

theorem sep_data : ("/" : String).data = ['/'] := rfl

theorem data_ne_nil {n : String} (h : n ≠ "") : n.data ≠ [] := by
  intro hd
  apply h
  apply String.ext
  simpa using hd

theorem joined_data {p n : String} (hp : goodPath p = true) (hn : validName n = true) :
    (osPathJoin p n).data = p.data ++ '/' :: n.data := by
  rw [osPathJoin_eq hp hn, String.data_append, String.data_append, sep_data]
  simp

theorem goodPath_join {p n : String} (hp : goodPath p = true) (hn : validName n = true) :
    goodPath (osPathJoin p n) = true := by
  obtain ⟨hn1, hn2, -⟩ := validName_parts hn
  have hd := joined_data hp hn
  have hnd : n.data ≠ [] := data_ne_nil hn1
  obtain ⟨c, l, he⟩ := List.exists_cons_of_ne_nil hnd
  have hlastmem : (c :: l).getLast (by simp) ∈ n.data := by
    rw [he]
    exact List.getLast_mem _
  have hlast : (osPathJoin p n).data.getLast? = some ((c :: l).getLast (by simp)) := by
    rw [hd, List.getLast?_append, he, List.getLast?_cons_cons,
      List.getLast?_eq_getLast (c :: l) (by simp), Option.or_some]
  have hne : (osPathJoin p n) ≠ "" := by
    intro h0
    rw [h0] at hd
    have : ([] : List Char) = p.data ++ '/' :: n.data := hd
    simp at this
  simp only [goodPath, Bool.and_eq_true, Bool.not_eq_true', bne_iff_ne, ne_eq]
  refine ⟨hne, ?_⟩
  rw [strEndsWithSlash, hlast]
  simp only [beq_eq_false_iff_ne, ne_eq, Option.some.injEq]
  intro hx
  apply hn2
  rw [← hx]
  exact hlastmem

theorem join_inj {p n₁ n₂ : String} (hp : goodPath p = true)
    (h₁ : validName n₁ = true) (h₂ : validName n₂ = true)
    (h : osPathJoin p n₁ = osPathJoin p n₂) : n₁ = n₂ := by
  rw [osPathJoin_eq hp h₁, osPathJoin_eq hp h₂] at h
  exact strAppend_cancel_left h



theorem validForest_parts {kind : DirKind} {name : String} {files : List String}
    {children rest : Forest}
    (h : validForest (.node kind name files children rest) = true) :
    validName name = true ∧ files.all validName = true ∧ files.Nodup ∧
      name ∉ levelNames rest ∧ validForest children = true ∧ validForest rest = true := by
  simp only [validForest, Bool.and_eq_true, Bool.not_eq_true', decide_eq_true_eq] at h
  obtain ⟨⟨⟨⟨⟨h1, h2⟩, h3⟩, h4⟩, h5⟩, h6⟩ := h
  refine ⟨h1, h2, h3, ?_, h5, h6⟩
  intro hm
  simp_all

theorem reach_shape (env : Env) (f : Forest) :
    ∀ (parent q : String), goodPath parent = true → validForest f = true →
      q ∈ reachFiles env parent f →
      ∃ d s, d ∈ levelNames f ∧ validName d = true ∧
        q.data = parent.data ++ '/' :: (d.data ++ '/' :: s) := by
  induction f with
  | nil =>
    intro parent q _ _ hq
    simp [reachFiles] at hq
  | node kind name files children rest ihc ihr =>
    intro parent q hp hv hq
    obtain ⟨hvn, hvf, hvnd, hvmem, hvc, hvr⟩ := validForest_parts hv
    cases kind with
    | permDenied =>
      simp only [reachFiles, List.nil_append] at hq
      obtain ⟨d, s, hd, hdv, he⟩ := ihr parent q hp hvr hq
      exact ⟨d, s, List.mem_cons_of_mem _ hd, hdv, he⟩
    | listErr =>
      simp only [reachFiles, List.nil_append] at hq
      obtain ⟨d, s, hd, hdv, he⟩ := ihr parent q hp hvr hq
      exact ⟨d, s, List.mem_cons_of_mem _ hd, hdv, he⟩
    | readable =>
      have hroot : goodPath (osPathJoin parent name) = true := goodPath_join hp hvn
      simp only [reachFiles, List.mem_append] at hq
      rcases hq with (hq | hq) | hq
      · rw [List.mem_filter] at hq
        obtain ⟨fname, hfm, rfl⟩ := List.mem_map.mp hq.1
        have hfv : validName fname = true := List.all_eq_true.mp hvf fname hfm
        refine ⟨name, fname.data, List.mem_cons_self _ _, hvn, ?_⟩
        rw [joined_data hroot hfv, joined_data hp hvn]
        simp
      · obtain ⟨d', s', _, _, he⟩ := ihc (osPathJoin parent name) q hroot hvc hq
        refine ⟨name, d'.data ++ '/' :: s', List.mem_cons_self _ _, hvn, ?_⟩
        rw [he, joined_data hp hvn]
        simp
      · obtain ⟨d, s, hd, hdv, he⟩ := ihr parent q hp hvr hq
        exact ⟨d, s, List.mem_cons_of_mem _ hd, hdv, he⟩

theorem reach_nodup (env : Env) (f : Forest) :
    ∀ parent : String, goodPath parent = true → validForest f = true →
      (reachFiles env parent f).Nodup := by
  induction f with
  | nil =>
    intro parent _ _
    simp [reachFiles]
  | node kind name files children rest ihc ihr =>
    intro parent hp hv
    obtain ⟨hvn, hvf, hvnd, hvmem, hvc, hvr⟩ := validForest_parts hv
    cases kind with
    | permDenied => simpa [reachFiles] using ihr parent hp hvr
    | listErr => simpa [reachFiles] using ihr parent hp hvr
    | readable =>
      have hroot : goodPath (osPathJoin parent name) = true := goodPath_join hp hvn
      simp only [reachFiles]
      rw [List.nodup_append]
      refine ⟨?_, ihr parent hp hvr, ?_⟩
      · rw [List.nodup_append]
        refine ⟨?_, ihc (osPathJoin parent name) hroot hvc, ?_⟩
        · refine List.Nodup.filter _ (List.Nodup.map_on ?_ hvnd)
          intro x hx y hy hxy
          exact join_inj hroot (List.all_eq_true.mp hvf x hx)
            (List.all_eq_true.mp hvf y hy) hxy
        · intro q hqA hqB
          rw [List.mem_filter] at hqA
          obtain ⟨fname, hfm, rfl⟩ := List.mem_map.mp hqA.1
          have hfv : validName fname = true := List.all_eq_true.mp hvf fname hfm
          obtain ⟨d', s', _, _, he⟩ :=
            reach_shape env children (osPathJoin parent name) _ hroot hvc hqB
          rw [joined_data hroot hfv] at he
          have := List.append_cancel_left he
          simp only [List.cons.injEq, true_and] at this
          exact absurd (this ▸ List.mem_append_right d'.data (List.mem_cons_self '/' s'))
            (validName_parts hfv).2.1
      · intro q hqAB hqC
        obtain ⟨d₂, s₂, hd₂, hd₂v, he₂⟩ := reach_shape env rest parent q hp hvr hqC
        have he₁ : ∃ s₁, q.data = parent.data ++ '/' :: (name.data ++ '/' :: s₁) := by
          rw [List.mem_append] at hqAB
          rcases hqAB with hq | hq
          · rw [List.mem_filter] at hq
            obtain ⟨fname, hfm, rfl⟩ := List.mem_map.mp hq.1
            have hfv : validName fname = true := List.all_eq_true.mp hvf fname hfm
            refine ⟨fname.data, ?_⟩
            rw [joined_data hroot hfv, joined_data hp hvn]
            simp
          · obtain ⟨d', s', _, _, he⟩ :=
              reach_shape env children (osPathJoin parent name) q hroot hvc hq
            refine ⟨d'.data ++ '/' :: s', ?_⟩
            rw [he, joined_data hp hvn]
            simp
        obtain ⟨s₁, he₁⟩ := he₁
        rw [he₁] at he₂
        have hx := List.append_cancel_left he₂
        simp only [List.cons.injEq, true_and] at hx
        have hsep := slashFree_sep_inj name.data d₂.data s₁ s₂
          (validName_parts hvn).2.1 (validName_parts hd₂v).2.1 hx
        refine hvmem ?_
        rw [String.ext hsep.1]
        exact hd₂



theorem scanOne_frame (env : Env) (root n : String) (st : AuditState) :
    (scanOne env root n st).inaccessible = st.inaccessible ∧
    (scanOne env root n st).consulted = st.consulted ∧
    (scanOne env root n st).visited = st.visited ∧
    (scanOne env root n st).pruneHits = st.pruneHits := by
  simp only [scanOne]
  split
  · split <;> (try split) <;> (try split) <;> simp
  · simp

theorem scanOne_all_isfile (env : Env) (root n : String) (st : AuditState)
    (h : st.scanned.all env.isfile = true) :
    (scanOne env root n st).scanned.all env.isfile = true := by
  simp only [scanOne]
  split
  · rename_i hf
    split <;> (try split) <;> (try split) <;> simp_all
  · exact h

theorem scanOne_cmd_inv (env : Env) (root n : String) (st : AuditState)
    (h : st.commands = st.scanned.map clamscanCommand) :
    (scanOne env root n st).commands = (scanOne env root n st).scanned.map clamscanCommand := by
  simp only [scanOne]
  split
  · split <;> (try split) <;> (try split) <;> simp_all
  · exact h

theorem scanFiles_bundle (env : Env) (root : String) (files : List String) :
    ∀ st : AuditState,
      (scanFiles env root files st).inaccessible = st.inaccessible ∧
      (scanFiles env root files st).consulted = st.consulted ∧
      (scanFiles env root files st).visited = st.visited ∧
      (scanFiles env root files st).pruneHits = st.pruneHits ∧
      (st.visited ⊆ st.consulted →
        (scanFiles env root files st).visited ⊆ (scanFiles env root files st).consulted) ∧
      (st.scanned.all env.isfile = true →
        (scanFiles env root files st).scanned.all env.isfile = true) ∧
      (st.commands = st.scanned.map clamscanCommand →
        (scanFiles env root files st).commands =
          (scanFiles env root files st).scanned.map clamscanCommand) := by
  induction files with
  | nil =>
    intro st
    simp [scanFiles]
  | cons f rest ih =>
    intro st
    by_cases ha : st.aborted = true
    · simp [scanFiles, ha]
    · simp only [scanFiles, if_neg ha]
      obtain ⟨h1, h2, h3, h4, h5, h6, h7⟩ := ih (scanOne env root f st)
      obtain ⟨g1, g2, g3, g4⟩ := scanOne_frame env root f st
      refine ⟨h1.trans g1, h2.trans g2, h3.trans g3, h4.trans g4, ?_, ?_, ?_⟩
      · intro hsub
        refine h5 ?_
        rw [g2, g3]
        exact hsub
      · intro hall
        exact h6 (scanOne_all_isfile env root f st hall)
      · intro hc
        exact h7 (scanOne_cmd_inv env root f st hc)

theorem walk_bundle (env : Env) (f : Forest) :
    ∀ (parent : String) (st : AuditState),
      (walkForest env parent f st).inaccessible = st.inaccessible ∧
      (st.inaccessible = [] →
        (walkForest env parent f st).pruneHits = st.pruneHits) ∧
      (st.visited ⊆ st.consulted →
        (walkForest env parent f st).visited ⊆ (walkForest env parent f st).consulted) ∧
      (st.aborted = true → walkForest env parent f st = st) ∧
      (st.scanned.all env.isfile = true →
        (walkForest env parent f st).scanned.all env.isfile = true) ∧
      (st.commands = st.scanned.map clamscanCommand →
        (walkForest env parent f st).commands =
          (walkForest env parent f st).scanned.map clamscanCommand) := by
  induction f with
  | nil =>
    intro parent st
    simp [walkForest]
  | node kind name files children rest ihc ihr =>
    intro parent st
    by_cases ha : st.aborted = true
    · simp only [walkForest, if_pos ha]
      obtain ⟨r1, r2, r3, r4, r5, r6⟩ := ihr parent st
      exact ⟨r1, r2, r3, fun _ => r4 ha, r5, r6⟩
    · cases kind with
      | permDenied =>
        simp only [walkForest, if_neg ha]
        obtain ⟨r1, r2, r3, r4, r5, r6⟩ := ihr parent st
        exact ⟨r1, r2, r3, fun h => absurd h ha, r5, r6⟩
      | listErr =>
        simp only [walkForest, if_neg ha]
        obtain ⟨r1, r2, r3, r4, r5, r6⟩ := ihr parent st
        exact ⟨r1, r2, r3, fun h => absurd h ha, r5, r6⟩
      | readable =>
        simp only [walkForest, if_neg ha]
        by_cases hm : osPathJoin parent name ∈ st.inaccessible
        · rw [if_pos hm]
          refine ⟨(ihr parent _).1, ?_, ?_, fun h => absurd h ha, ?_, ?_⟩
          · intro hempty
            exact absurd (hempty ▸ hm) (List.not_mem_nil _)
          · intro hsub
            refine (ihr parent _).2.2.1 ?_
            intro x hx
            replace hx : x ∈ st.visited := hx
            show x ∈ st.consulted ++ [osPathJoin parent name]
            exact List.mem_append.mpr (Or.inl (hsub hx))
          · exact fun hall => (ihr parent _).2.2.2.2.1 hall
          · exact fun hc => (ihr parent _).2.2.2.2.2 hc
        · rw [if_neg hm]
          refine ⟨?_, ?_, ?_, fun h => absurd h ha, ?_, ?_⟩
          · exact ((ihr parent _).1).trans
              (((ihc _ _).1).trans ((scanFiles_bundle _ _ _ _).1))
          · intro hempty
            have sfb := scanFiles_bundle env (osPathJoin parent name) files
              { st with consulted := st.consulted ++ [osPathJoin parent name],
                        visited := st.visited ++ [osPathJoin parent name] }
            refine ((ihr parent _).2.1
              (((ihc _ _).1).trans (sfb.1.trans hempty))).trans
              (((ihc _ _).2.1 (sfb.1.trans hempty)).trans sfb.2.2.2.1)
          · intro hsub
            refine (ihr parent _).2.2.1 ((ihc _ _).2.2.1
              ((scanFiles_bundle _ _ _ _).2.2.2.2.1 ?_))
            intro x hx
            replace hx : x ∈ st.visited ++ [osPathJoin parent name] := hx
            show x ∈ st.consulted ++ [osPathJoin parent name]
            rcases List.mem_append.mp hx with h | h
            · exact List.mem_append.mpr (Or.inl (hsub h))
            · exact List.mem_append.mpr (Or.inr h)
          · exact fun hall => (ihr parent _).2.2.2.2.1
              ((ihc _ _).2.2.2.2.1 ((scanFiles_bundle _ _ _ _).2.2.2.2.2.1 hall))
          · exact fun hc => (ihr parent _).2.2.2.2.2
              ((ihc _ _).2.2.2.2.2 ((scanFiles_bundle _ _ _ _).2.2.2.2.2.2 hc))

theorem allExit_elim {env : Env} (hx : allExit env) (q : String) :
    ∃ c stdout stderr, env.scan q = .exit c stdout stderr := by
  have h := hx q
  cases he : env.scan q with
  | exit c o e => exact ⟨c, o, e, rfl⟩
  | notFound => rw [he] at h; exact absurd h (by simp [ScanOutcome.isExit])
  | otherExc m => rw [he] at h; exact absurd h (by simp [ScanOutcome.isExit])

theorem scanOne_exit_core (env : Env) (root n : String) (st : AuditState)
    (hex : allExit env) :
    (scanOne env root n st).scanned =
      st.scanned ++
        (if env.isfile (osPathJoin root n) then [osPathJoin root n] else []) ∧
    (scanOne env root n st).aborted = st.aborted ∧
    (scanOne env root n st).classifications.map Prod.fst =
      st.classifications.map Prod.fst ++
        (if env.isfile (osPathJoin root n) then [osPathJoin root n] else []) := by
  obtain ⟨c, o, e, hs⟩ := allExit_elim hex (osPathJoin root n)
  simp only [scanOne, hs]
  split <;> (try split) <;> (try split) <;> simp

theorem scanFiles_exit (env : Env) (root : String) (hex : allExit env) :
    ∀ (files : List String) (st : AuditState), st.aborted = false →
      (scanFiles env root files st).scanned =
        st.scanned ++ (files.map (fun n => osPathJoin root n)).filter env.isfile ∧
      (scanFiles env root files st).aborted = false ∧
      (scanFiles env root files st).classifications.map Prod.fst =
        st.classifications.map Prod.fst ++
          (files.map (fun n => osPathJoin root n)).filter env.isfile := by
  intro files
  induction files with
  | nil =>
    intro st ha
    simp [scanFiles, ha]
  | cons f rest ih =>
    intro st ha
    rw [scanFiles, if_neg (by rw [ha]; exact Bool.false_ne_true)]
    obtain ⟨g1, g2, g3⟩ := scanOne_exit_core env root f st hex
    obtain ⟨h1, h2, h3⟩ := ih (scanOne env root f st) (g2.trans ha)
    refine ⟨?_, h2, ?_⟩
    · rw [h1, g1]
      by_cases hif : env.isfile (osPathJoin root f) = true <;>
        simp [hif, List.filter_cons]
    · rw [h3, g3]
      by_cases hif : env.isfile (osPathJoin root f) = true <;>
        simp [hif, List.filter_cons]

theorem walk_exit (env : Env) (hex : allExit env) (f : Forest) :
    ∀ (parent : String) (st : AuditState), st.aborted = false → st.inaccessible = [] →
      (walkForest env parent f st).scanned = st.scanned ++ reachFiles env parent f ∧
      (walkForest env parent f st).aborted = false ∧
      (walkForest env parent f st).classifications.map Prod.fst =
        st.classifications.map Prod.fst ++ reachFiles env parent f := by
  induction f with
  | nil =>
    intro parent st ha _
    simp [walkForest, reachFiles, ha]
  | node kind name files children rest ihc ihr =>
    intro parent st ha hempty
    simp only [walkForest]
    rw [if_neg (by rw [ha]; exact Bool.false_ne_true)]
    cases kind with
    | permDenied =>
      obtain ⟨r1, r2, r3⟩ := ihr parent st ha hempty
      simp only [reachFiles]
      exact ⟨by simpa using r1, r2, by simpa using r3⟩
    | listErr =>
      obtain ⟨r1, r2, r3⟩ := ihr parent st ha hempty
      simp only [reachFiles]
      exact ⟨by simpa using r1, r2, by simpa using r3⟩
    | readable =>
      rw [if_neg (by rw [hempty]; exact List.not_mem_nil _)]
      have sfb := scanFiles_exit env (osPathJoin parent name) hex files
        { st with consulted := st.consulted ++ [osPathJoin parent name],
                  visited := st.visited ++ [osPathJoin parent name] }
        ha
      have sfinacc : (scanFiles env (osPathJoin parent name) files
          { st with consulted := st.consulted ++ [osPathJoin parent name],
                    visited := st.visited ++ [osPathJoin parent name] }).inaccessible
          = st.inaccessible := (scanFiles_bundle _ _ _ _).1
      obtain ⟨c1, c2, c3⟩ := ihc (osPathJoin parent name) _ sfb.2.1
        (sfinacc.trans hempty)
      have winacc : (walkForest env (osPathJoin parent name) children
          (scanFiles env (osPathJoin parent name) files
            { st with consulted := st.consulted ++ [osPathJoin parent name],
                      visited := st.visited ++ [osPathJoin parent name] })).inaccessible
          = st.inaccessible := (walk_bundle env children _ _).1.trans sfinacc
      obtain ⟨r1, r2, r3⟩ := ihr parent _ c2 (winacc.trans hempty)
      refine ⟨?_, r2, ?_⟩
      · rw [r1, c1, sfb.1]
        simp [reachFiles, List.append_assoc]
      · rw [r3, c3, sfb.2.2]
        simp [reachFiles, List.append_assoc]



theorem scanningMsg_inj {p F : String} : scanningMsg p = scanningMsg F ↔ p = F :=
  ⟨fun h => strAppend_cancel_left h, fun h => by rw [h]⟩

theorem debugLine_beq (p F : String) :
    (mkLog .debug (scanningMsg p) == mkLog .debug (scanningMsg F)) = (p == F) := by
  rcases eq_or_ne p F with h | h
  · subst h; simp
  · have hne : scanningMsg p ≠ scanningMsg F := fun hc => h (strAppend_cancel_left hc)
    simp [mkLog, beq_eq_false_iff_ne, h, hne, LogLine.mk.injEq]

theorem scanOne_debugCount (env : Env) (root n F : String) (st : AuditState)
    (h : countLine (mkLog .debug (scanningMsg F)) st.log = st.scanned.count F) :
    countLine (mkLog .debug (scanningMsg F)) (scanOne env root n st).log =
      (scanOne env root n st).scanned.count F := by
  simp only [scanOne]
  split
  · split <;> (try split) <;> (try split) <;>
      simp_all [countLine, List.countP_append, List.count_append,
        List.countP_cons, List.count_cons, debugLine_beq, mkLog, scanningMsg_inj]
  · exact h

theorem scanFiles_debugCount (env : Env) (root F : String) :
    ∀ (files : List String) (st : AuditState),
      countLine (mkLog .debug (scanningMsg F)) st.log = st.scanned.count F →
      countLine (mkLog .debug (scanningMsg F)) (scanFiles env root files st).log =
        (scanFiles env root files st).scanned.count F := by
  intro files
  induction files with
  | nil => intro st h; simpa [scanFiles] using h
  | cons f rest ih =>
    intro st h
    by_cases ha : st.aborted = true
    · simpa [scanFiles, ha] using h
    · rw [scanFiles, if_neg ha]
      exact ih _ (scanOne_debugCount env root f F st h)

theorem walk_debugCount (env : Env) (F : String) (f : Forest) :
    ∀ (parent : String) (st : AuditState),
      countLine (mkLog .debug (scanningMsg F)) st.log = st.scanned.count F →
      countLine (mkLog .debug (scanningMsg F)) (walkForest env parent f st).log =
        (walkForest env parent f st).scanned.count F := by
  induction f with
  | nil => intro parent st h; simpa [walkForest] using h
  | node kind name files children rest ihc ihr =>
    intro parent st h
    by_cases ha : st.aborted = true
    · simp only [walkForest, if_pos ha]
      exact ihr parent st h
    · cases kind with
      | permDenied => simp only [walkForest, if_neg ha]; exact ihr parent st h
      | listErr => simp only [walkForest, if_neg ha]; exact ihr parent st h
      | readable =>
        simp only [walkForest, if_neg ha]
        by_cases hm : osPathJoin parent name ∈ st.inaccessible
        · rw [if_pos hm]
          exact ihr parent _ h
        · rw [if_neg hm]
          exact ihr parent _ (ihc _ _ (scanFiles_debugCount env _ F files _ h))

theorem scanOne_nf (env : Env) (root n : String) (st : AuditState)
    (hnf : ∀ q, env.scan q = .notFound) (ha : st.aborted = false)
    (h1 : countLine notFoundLine st.log = st.scanned.length)
    (h2 : st.scanned.length ≤ 1)
    (h3 : st.aborted = true ↔ st.scanned.length = 1) :
    countLine notFoundLine (scanOne env root n st).log =
        (scanOne env root n st).scanned.length ∧
      (scanOne env root n st).scanned.length ≤ 1 ∧
      ((scanOne env root n st).aborted = true ↔
        (scanOne env root n st).scanned.length = 1) := by
  have hs0 : st.scanned.length = 0 := by
    rcases Nat.lt_or_ge st.scanned.length 1 with hlt | hge
    · omega
    · exfalso
      have := h3.mpr (by omega)
      rw [ha] at this
      exact Bool.false_ne_true this
  simp only [scanOne, hnf]
  split
  · simp_all [countLine, List.countP_append, List.countP_cons, notFoundLine, mkLog,
      scanningMsg]
  · exact ⟨h1, h2, h3⟩

theorem scanFiles_nf (env : Env) (root : String)
    (hnf : ∀ q, env.scan q = .notFound) :
    ∀ (files : List String) (st : AuditState),
      countLine notFoundLine st.log = st.scanned.length →
      st.scanned.length ≤ 1 →
      (st.aborted = true ↔ st.scanned.length = 1) →
      countLine notFoundLine (scanFiles env root files st).log =
          (scanFiles env root files st).scanned.length ∧
        (scanFiles env root files st).scanned.length ≤ 1 ∧
        ((scanFiles env root files st).aborted = true ↔
          (scanFiles env root files st).scanned.length = 1) := by
  intro files
  induction files with
  | nil =>
    intro st h1 h2 h3
    rw [scanFiles]
    split
    · exact ⟨h1, h2, h3⟩
    · exact ⟨h1, h2, h3⟩
  | cons f rest ih =>
    intro st h1 h2 h3
    rw [scanFiles]
    split
    · exact ⟨h1, h2, h3⟩
    · rename_i ha
      have ha' : st.aborted = false := by
        cases hb : st.aborted
        · rfl
        · exact absurd hb ha
      obtain ⟨g1, g2, g3⟩ := scanOne_nf env root f st hnf ha' h1 h2 h3
      exact ih _ g1 g2 g3

theorem walk_nf (env : Env) (hnf : ∀ q, env.scan q = .notFound) (f : Forest) :
    ∀ (parent : String) (st : AuditState),
      countLine notFoundLine st.log = st.scanned.length →
      st.scanned.length ≤ 1 →
      (st.aborted = true ↔ st.scanned.length = 1) →
      countLine notFoundLine (walkForest env parent f st).log =
          (walkForest env parent f st).scanned.length ∧
        (walkForest env parent f st).scanned.length ≤ 1 ∧
        ((walkForest env parent f st).aborted = true ↔
          (walkForest env parent f st).scanned.length = 1) := by
  induction f with
  | nil =>
    intro parent st h1 h2 h3
    simpa [walkForest] using ⟨h1, h2, h3⟩
  | node kind name files children rest ihc ihr =>
    intro parent st h1 h2 h3
    by_cases ha : st.aborted = true
    · simp only [walkForest, if_pos ha]
      exact ihr parent st h1 h2 h3
    · cases kind with
      | permDenied => simp only [walkForest, if_neg ha]; exact ihr parent st h1 h2 h3
      | listErr => simp only [walkForest, if_neg ha]; exact ihr parent st h1 h2 h3
      | readable =>
        simp only [walkForest, if_neg ha]
        by_cases hm : osPathJoin parent name ∈ st.inaccessible
        · rw [if_pos hm]
          exact ihr parent _ h1 h2 h3
        · rw [if_neg hm]
          obtain ⟨g1, g2, g3⟩ := scanFiles_nf env (osPathJoin parent name) hnf files
            { st with consulted := st.consulted ++ [osPathJoin parent name],
                      visited := st.visited ++ [osPathJoin parent name] } h1 h2 h3
          obtain ⟨c1, c2, c3⟩ := ihc (osPathJoin parent name) _ g1 g2 g3
          exact ihr parent _ c1 c2 c3



theorem osPathJoin_empty (b : String) : osPathJoin "" b = b := by
  rw [osPathJoin]
  split
  · rfl
  · rw [if_pos]
    · apply String.ext
      rw [String.data_append]
      simp
    · simp

theorem audit_eq (env : Env) (start_path : String) (r : RootDir) :
    audit_files_with_clamav env start_path (some r) =
      (if (walkForest env "" (rootForest start_path r) (auditStart start_path)).aborted then
        walkForest env "" (rootForest start_path r) (auditStart start_path)
      else
        { walkForest env "" (rootForest start_path r) (auditStart start_path) with
            log := (walkForest env "" (rootForest start_path r)
              (auditStart start_path)).log ++ [mkLog .info completedMsg] }) := rfl

theorem reachable_eq (env : Env) (start_path : String) (r : RootDir) :
    r.kind = .readable →
    reachableRegularFiles env start_path r =
      (r.files.map (fun n => osPathJoin start_path n)).filter env.isfile ++
        reachFiles env start_path r.children := by
  intro hk
  rw [reachableRegularFiles, rootForest, hk]
  simp only [reachFiles, osPathJoin_empty, List.append_nil]

theorem reachable_nodup_root (env : Env) (start_path : String) (r : RootDir)
    (hgp : goodPath start_path = true) (hv : validRoot r = true) :
    (reachableRegularFiles env start_path r).Nodup := by
  obtain ⟨⟨hvf, hvnd⟩, hvc⟩ : (r.files.all validName = true ∧ r.files.Nodup) ∧
      validForest r.children = true := by
    simp only [validRoot, Bool.and_eq_true, decide_eq_true_eq] at hv
    exact ⟨⟨hv.1.1, hv.1.2⟩, hv.2⟩
  cases hk : r.kind with
  | permDenied =>
    rw [reachableRegularFiles, rootForest, hk]
    simp [reachFiles]
  | listErr =>
    rw [reachableRegularFiles, rootForest, hk]
    simp [reachFiles]
  | readable =>
    rw [reachable_eq env start_path r hk]
    rw [List.nodup_append]
    refine ⟨?_, reach_nodup env r.children start_path hgp hvc, ?_⟩
    · refine List.Nodup.filter _ (List.Nodup.map_on ?_ hvnd)
      intro x hx y hy hxy
      exact join_inj hgp (List.all_eq_true.mp hvf x hx)
        (List.all_eq_true.mp hvf y hy) hxy
    · intro q hqA hqB
      rw [List.mem_filter] at hqA
      obtain ⟨fname, hfm, rfl⟩ := List.mem_map.mp hqA.1
      have hfv : validName fname = true := List.all_eq_true.mp hvf fname hfm
      obtain ⟨d', s', _, _, he⟩ :=
        reach_shape env r.children start_path _ hgp hvc hqB
      rw [joined_data hgp hfv] at he
      have := List.append_cancel_left he
      simp only [List.cons.injEq, true_and] at this
      exact absurd (this ▸ List.mem_append_right d'.data (List.mem_cons_self '/' s'))
        (validName_parts hfv).2.1


/-! ### Claim theorems -/

/-- C1: for every scanned file the exit status of the scanner subprocess is
classified exactly per the contract: exit 0 adds one info line
`CLEAN: <path>`; exit 1 adds a warning line `INFECTED: <path>` followed by a
warning line with the trimmed standard output; any other exit code adds an
error line carrying the exit code followed by an error line with the
trimmed standard error (the debug line precedes the invocation and is
independent of the exit status). -/
theorem c1_exit_code_classification (env : Env) (root file_name stdout stderr : String)
    (code : Int) (st : AuditState)
    (hf : env.isfile (osPathJoin root file_name) = true)
    (hs : env.scan (osPathJoin root file_name) = .exit code stdout stderr) :
    (scanOne env root file_name st).log =
      st.log ++ [mkLog .debug (scanningMsg (osPathJoin root file_name))] ++
      (if code = 0 then [mkLog .info (cleanMsg (osPathJoin root file_name))]
       else if code = 1 then
         [mkLog .warning (infectedMsg (osPathJoin root file_name)),
          mkLog .warning (infectedDetailMsg stdout)]
       else
         [mkLog .error (scanErrMsg (osPathJoin root file_name) code),
          mkLog .error (scanErrDetailMsg stderr)]) := by
  simp only [scanOne, hf, if_true, hs]
  split <;> (try split) <;> simp

/-- Witness for C1 at a concrete infected file. -/
theorem c1_exit_code_classification_witness :
    (scanOne envMixed "/r" "b.exe" initState).log =
      initState.log ++ [mkLog .debug (scanningMsg (osPathJoin "/r" "b.exe"))] ++
      (if (1 : Int) = 0 then [mkLog .info (cleanMsg (osPathJoin "/r" "b.exe"))]
       else if (1 : Int) = 1 then
         [mkLog .warning (infectedMsg (osPathJoin "/r" "b.exe")),
          mkLog .warning (infectedDetailMsg " FOUND: Test.Signature ")]
       else
         [mkLog .error (scanErrMsg (osPathJoin "/r" "b.exe") 1),
          mkLog .error (scanErrDetailMsg " some stderr text ")]) :=
  c1_exit_code_classification envMixed "/r" "b.exe" " FOUND: Test.Signature "
    " some stderr text " 1 initState (by decide) (by decide)



/-- C2 (code versus claim): on a root containing a subdirectory whose
listing raises `PermissionError`, the run prunes the subtree (the hidden
file is never scanned and the directory is never visited) but - contrary to
the claim and to the intent of lines 84-87 - records nothing in
`inaccessible_dirs` and emits no warning at all: `os.walk` was given no
`onerror` callback, so the listing error is swallowed inside the generator
and the handler never runs. -/
theorem c2_listing_permission_error_handled_silently :
    (audit_files_with_clamav envAllClean "/r" (some rootLocked)).inaccessible = [] ∧
    countLine (mkLog .warning (permDeniedMsg "/r/locked"))
      (audit_files_with_clamav envAllClean "/r" (some rootLocked)).log = 0 ∧
    (audit_files_with_clamav envAllClean "/r" (some rootLocked)).log.countP
      (fun l => l.level == Level.warning) = 0 ∧
    (audit_files_with_clamav envAllClean "/r" (some rootLocked)).scanned = ["/r/a.txt"] ∧
    (audit_files_with_clamav envAllClean "/r" (some rootLocked)).visited = ["/r"] := by
  decide

/-- C3: when the root path does not name an existing directory, the run
logs exactly the single error line of line 17, invokes no scanner, never
consults or visits any directory, and returns normally. -/
theorem c3_invalid_root_single_error (env : Env) (start_path : String) :
    (audit_files_with_clamav env start_path none).log =
        [mkLog .error (invalidRootMsg start_path)] ∧
      (audit_files_with_clamav env start_path none).commands = [] ∧
      (audit_files_with_clamav env start_path none).scanned = [] ∧
      (audit_files_with_clamav env start_path none).consulted = [] ∧
      (audit_files_with_clamav env start_path none).visited = [] :=
  ⟨rfl, rfl, rfl, rfl, rfl⟩



/-- C4: when the scanner binary cannot be located (every launch raises
`FileNotFoundError`), the missing-binary error is logged once per attempted
launch, at most one launch is ever attempted in the whole run, and once the
`return` of line 80 has executed the walk is finished: walking any further
forest or file list leaves the state untouched. -/
theorem c4_missing_binary_aborts_run (env : Env) (start_path : String) (r : RootDir)
    (parent2 root2 : String) (f2 : Forest) (files2 : List String) (s2 : AuditState)
    (hnf : ∀ q, env.scan q = .notFound) (ha2 : s2.aborted = true) :
    countLine notFoundLine (audit_files_with_clamav env start_path (some r)).log =
        (audit_files_with_clamav env start_path (some r)).scanned.length ∧
      (audit_files_with_clamav env start_path (some r)).scanned.length ≤ 1 ∧
      walkForest env parent2 f2 s2 = s2 ∧
      scanFiles env root2 files2 s2 = s2 := by
  have hbase1 : countLine notFoundLine (auditStart start_path).log =
      (auditStart start_path).scanned.length := by
    simp [auditStart, initState, countLine, List.countP_cons, notFoundLine, mkLog]
  obtain ⟨w1, w2, w3⟩ := walk_nf env hnf (rootForest start_path r) "" (auditStart start_path)
    hbase1 (by simp [auditStart, initState]) (by simp [auditStart, initState])
  refine ⟨?_, ?_, (walk_bundle env f2 parent2 s2).2.2.2.1 ha2, ?_⟩
  · rw [audit_eq]
    split
    · exact w1
    · simpa [countLine, List.countP_append, List.countP_cons, notFoundLine, mkLog,
        completedMsg] using w1
  · rw [audit_eq]
    split
    · exact w2
    · exact w2
  · cases files2 <;> simp [scanFiles, ha2]

/-- Witness for C4 on a concrete two-file root with the binary absent. -/
theorem c4_missing_binary_aborts_run_witness :
    countLine notFoundLine
        (audit_files_with_clamav envNoBinary "/r" (some rootTwoFiles)).log =
        (audit_files_with_clamav envNoBinary "/r" (some rootTwoFiles)).scanned.length ∧
      (audit_files_with_clamav envNoBinary "/r" (some rootTwoFiles)).scanned.length ≤ 1 ∧
      walkForest envNoBinary "" (rootForest "/x" rootTwoFiles) abortedState =
        abortedState ∧
      scanFiles envNoBinary "/r" ["z.txt"] abortedState = abortedState :=
  c4_missing_binary_aborts_run envNoBinary "/r" rootTwoFiles "" "/r"
    (rootForest "/x" rootTwoFiles) ["z.txt"] abortedState (fun _ => rfl) rfl



theorem classCount_eq (F : String) (cl : List (String × Classification)) :
    classCountFor F cl = List.count F (cl.map Prod.fst) := by
  induction cl with
  | nil => rfl
  | cons pc rest ih =>
    simp only [classCountFor, List.countP_cons, List.map_cons, List.count_cons] at *
    rw [ih]

/-- C5 as amended: provided every scanner invocation completes with an exit
status (scanner present, no unexpected exception), the files passed to the
scanner are exactly the reachable regular files, each is scanned exactly
once, and every reachable regular file receives exactly one classification
(and exactly one `Scanning:` debug line). -/
theorem c5_amended_unique_classification (env : Env) (start_path F : String) (r : RootDir)
    (hex : allExit env) (hgp : goodPath start_path = true) (hv : validRoot r = true)
    (hF : F ∈ reachableRegularFiles env start_path r) :
    (audit_files_with_clamav env start_path (some r)).scanned =
        reachableRegularFiles env start_path r ∧
      (audit_files_with_clamav env start_path (some r)).scanned.Nodup ∧
      classCountFor F
        (audit_files_with_clamav env start_path (some r)).classifications = 1 ∧
      countLine (mkLog .debug (scanningMsg F))
        (audit_files_with_clamav env start_path (some r)).log = 1 := by
  obtain ⟨e1, e2, e3⟩ := walk_exit env hex (rootForest start_path r) "" (auditStart start_path)
    rfl rfl
  have hnd := reachable_nodup_root env start_path r hgp hv
  have hcount : List.count F (reachableRegularFiles env start_path r) = 1 :=
    List.count_eq_one_of_mem hnd hF
  have hdbg := walk_debugCount env F (rootForest start_path r) "" (auditStart start_path)
    (by simp [auditStart, initState, countLine, List.countP_cons, mkLog])
  have hscan : (walkForest env "" (rootForest start_path r) (auditStart start_path)).scanned =
      reachableRegularFiles env start_path r := by
    simpa [auditStart, initState, reachableRegularFiles] using e1
  have hclass : (walkForest env "" (rootForest start_path r)
      (auditStart start_path)).classifications.map Prod.fst =
      reachableRegularFiles env start_path r := by
    simpa [auditStart, initState, reachableRegularFiles] using e3
  rw [audit_eq, if_neg (by rw [e2]; exact Bool.false_ne_true)]
  refine ⟨hscan, hscan ▸ hnd, ?_, ?_⟩
  · rw [classCount_eq, hclass]
    exact hcount
  · rw [countLine, List.countP_append, ← countLine]
    rw [hdbg, hscan, hcount]
    simp [countLine, List.countP_cons, mkLog, completedMsg]

/-- C5 as stated is false: with the scanner binary absent, `/r/b.txt` is a
regular file under the root, outside every pruned subtree, yet the run ends
(after the missing-binary abort on the first file) with zero classifications
for it, and the full log shows no classification line at all. -/
theorem c5_counterexample_no_classification :
    "/r/b.txt" ∈ reachableRegularFiles envNoBinary "/r" rootTwoFiles ∧
    classCountFor "/r/b.txt"
      (audit_files_with_clamav envNoBinary "/r" (some rootTwoFiles)).classifications = 0 ∧
    (audit_files_with_clamav envNoBinary "/r" (some rootTwoFiles)).log =
      [mkLog .info (startMsg "/r"), mkLog .debug (scanningMsg "/r/a.txt"),
       mkLog .error notFoundMsg] := by
  decide

/-- Witness for the amended C5 on a concrete mixed run. -/
theorem c5_amended_unique_classification_witness :
    (audit_files_with_clamav envMixed "/r" (some rootMixed)).scanned =
        reachableRegularFiles envMixed "/r" rootMixed ∧
      (audit_files_with_clamav envMixed "/r" (some rootMixed)).scanned.Nodup ∧
      classCountFor "/r/sub/bad.bin"
        (audit_files_with_clamav envMixed "/r" (some rootMixed)).classifications = 1 ∧
      countLine (mkLog .debug (scanningMsg "/r/sub/bad.bin"))
        (audit_files_with_clamav envMixed "/r" (some rootMixed)).log = 1 :=
  c5_amended_unique_classification envMixed "/r" "/r/sub/bad.bin" rootMixed
    (fun _ => rfl) (by decide) (by decide) (by decide)



/-- C6: every path that is passed to the scanner subprocess passed the
scan-time `os.path.isfile` check; non-regular entries are never scanned. -/
theorem c6_only_regular_files_scanned (env : Env) (start_path : String)
    (root : Option RootDir) :
    (audit_files_with_clamav env start_path root).scanned.all env.isfile = true := by
  cases root with
  | none => rfl
  | some r =>
    have h := (walk_bundle env (rootForest start_path r) "" (auditStart start_path)).2.2.2.2.1
      rfl
    rw [audit_eq]
    split
    · exact h
    · exact h

/-- C7: the inaccessible-directory set only grows during any walk step, the
set is consulted for every directory whose contents are processed (visited
directories form a subset of consulted ones), and a run neither receives a
set from outside (the function builds it from empty, as its type shows) nor
leaves anything in it. -/
theorem c7_inaccessible_set_discipline (env : Env) (start_path : String)
    (root : Option RootDir) (parent : String) (f : Forest) (s : AuditState) :
    s.inaccessible ⊆ (walkForest env parent f s).inaccessible ∧
      (audit_files_with_clamav env start_path root).visited ⊆
        (audit_files_with_clamav env start_path root).consulted ∧
      (audit_files_with_clamav env start_path root).inaccessible = [] := by
  refine ⟨?_, ?_, ?_⟩
  · rw [(walk_bundle env f parent s).1]
    exact fun x hx => hx
  · cases root with
    | none => exact fun x hx => hx
    | some r =>
      have h := (walk_bundle env (rootForest start_path r) "" (auditStart start_path)).2.2.1
        (fun x hx => hx)
      rw [audit_eq]
      split
      · exact h
      · exact h
  · cases root with
    | none => rfl
    | some r =>
      have h := (walk_bundle env (rootForest start_path r) "" (auditStart start_path)).1
      rw [audit_eq]
      split
      · exact h
      · exact h

/-- C8: an unexpected failure while invoking the scanner on one file adds
exactly one error line (with the path and the failure detail) after the
debug line, records the attempted invocation, changes nothing else - in
particular the run is not aborted and the classification record of other
files is untouched - and the file loop then continues with the next file. -/
theorem c8_unexpected_failure_isolated (env : Env) (root file_name e : String)
    (st : AuditState) (rest : List String)
    (hf : env.isfile (osPathJoin root file_name) = true)
    (hs : env.scan (osPathJoin root file_name) = .otherExc e) :
    scanOne env root file_name st =
      { st with
          log := st.log ++ [mkLog .debug (scanningMsg (osPathJoin root file_name)),
                            mkLog .error (unexpectedMsg (osPathJoin root file_name) e)],
          commands := st.commands ++ [clamscanCommand (osPathJoin root file_name)],
          scanned := st.scanned ++ [osPathJoin root file_name] } ∧
    (st.aborted = false →
      scanFiles env root (file_name :: rest) st =
        scanFiles env root rest (scanOne env root file_name st)) := by
  constructor
  · simp [scanOne, hf, hs]
  · intro ha
    rw [scanFiles, if_neg (by rw [ha]; exact Bool.false_ne_true)]

/-- Witness for C8 on a concrete broken-scanner system. -/
theorem c8_unexpected_failure_isolated_witness :
    scanOne envBroken "/r" "a.txt" initState =
      { initState with
          log := initState.log ++ [mkLog .debug (scanningMsg (osPathJoin "/r" "a.txt")),
                                   mkLog .error (unexpectedMsg (osPathJoin "/r" "a.txt") "boom")],
          commands := initState.commands ++ [clamscanCommand (osPathJoin "/r" "a.txt")],
          scanned := initState.scanned ++ [osPathJoin "/r" "a.txt"] } ∧
    (initState.aborted = false →
      scanFiles envBroken "/r" ["a.txt", "w.txt"] initState =
        scanFiles envBroken "/r" ["w.txt"] (scanOne envBroken "/r" "a.txt" initState)) :=
  c8_unexpected_failure_isolated envBroken "/r" "a.txt" "boom" initState ["w.txt"]
    (by decide) (by decide)

/-- C9: across any run, the recorded scanner invocations are exactly
`['clamscan', '--no-summary', <path>]` for the scanned paths in order, and
an invocation that completes with an exit status - zero or not - never
aborts anything (the exit status is data, not an exception). -/
theorem c9_command_line_and_no_raise (env : Env) (start_path : String)
    (root : Option RootDir) (root2 n2 : String) (s2 : AuditState)
    (c : Int) (o e : String)
    (hs : env.scan (osPathJoin root2 n2) = .exit c o e) :
    (audit_files_with_clamav env start_path root).commands =
        (audit_files_with_clamav env start_path root).scanned.map clamscanCommand ∧
      (scanOne env root2 n2 s2).aborted = s2.aborted := by
  constructor
  · cases root with
    | none => rfl
    | some r =>
      have h := (walk_bundle env (rootForest start_path r) "" (auditStart start_path)).2.2.2.2.2
        rfl
      rw [audit_eq]
      split
      · exact h
      · exact h
  · simp only [scanOne, hs]
    split
    · split <;> (try split) <;> simp
    · rfl

/-- Witness for C9 on a concrete clean scan. -/
theorem c9_command_line_and_no_raise_witness :
    (audit_files_with_clamav envMixed "/r" (some rootMixed)).commands =
        (audit_files_with_clamav envMixed "/r" (some rootMixed)).scanned.map
          clamscanCommand ∧
      (scanOne envMixed "/r" "a.txt" initState).aborted = initState.aborted :=
  c9_command_line_and_no_raise envMixed "/r" (some rootMixed) "/r" "a.txt" initState
    0 " FOUND: Test.Signature " " some stderr text " (by decide)

/-- C10: the pruning branch of line 28 (current directory already in
`inaccessible_dirs`) is never taken in any run. -/
theorem c10_membership_prune_branch_dead (env : Env) (start_path : String)
    (root : Option RootDir) :
    (audit_files_with_clamav env start_path root).pruneHits = 0 := by
  cases root with
  | none => rfl
  | some r =>
    have h := (walk_bundle env (rootForest start_path r) "" (auditStart start_path)).2.1 rfl
    rw [audit_eq]
    split
    · exact h
    · exact h


end ClamAVAudit
